import Mathlib

/-!
Shallow embedding of the two MAME driver files of this repository
(`src/mame/drivers/fidel_card.cpp` and `src/mame/retcom87/retcom87.cpp`)
and proofs about their bit-packing callbacks, address maps and static
barcode tables.
-/

set_option maxRecDepth 8000
set_option linter.unreachableTactic false
set_option linter.unusedTactic false

/-! ## Generic enumeration helper

A balanced boolean checker over the interval of naturals below a power
of two, with its soundness lemma.  Used to settle bounded universally
quantified facts by kernel evaluation. -/

def chkPow (f : Nat → Bool) : Nat → Nat → Bool
  | 0, lo => f lo
  | d+1, lo => chkPow f d (2*lo) && chkPow f d (2*lo+1)

theorem chkPow_spec (f : Nat → Bool) :
    ∀ d lo, chkPow f d lo = true → ∀ j, j < 2^d → f (lo * 2^d + j) = true := by
  intro d
  induction d with
  | zero =>
    intro lo h j hj
    have h0 : j = 0 := by simpa using hj
    subst h0
    simpa using h
  | succ k ih =>
    intro lo h j hj
    have hsplit : chkPow f (k+1) lo = (chkPow f k (2*lo) && chkPow f k (2*lo+1)) := rfl
    rw [hsplit, Bool.and_eq_true] at h
    have hp : (2:Nat)^(k+1) = 2^k + 2^k := by ring
    by_cases hc : j < 2^k
    · have hres := ih (2*lo) h.1 j hc
      have e : 2*lo * 2^k = lo * 2^(k+1) := by ring
      rw [e] at hres
      exact hres
    · have hj2 : j - 2^k < 2^k := by rw [hp] at hj; omega
      have hres := ih (2*lo+1) h.2 (j - 2^k) hj2
      have e1 : (2*lo+1) * 2^k = lo * 2^(k+1) + 2^k := by ring
      have e : (2*lo+1) * 2^k + (j - 2^k) = lo * 2^(k+1) + j := by omega
      rw [e] at hres
      exact hres

theorem chkPow_spec0 (f : Nat → Bool) (d : Nat) (h : chkPow f d 0 = true) :
    ∀ j, j < 2^d → f j = true := by
  intro j hj
  have hres := chkPow_spec f d 0 h j hj
  simpa using hres

/-! ## Generic bit lemmas -/

theorem testBit_mod_two_succ (n k : Nat) : (n % 2).testBit (k+1) = false := by
  apply Nat.testBit_eq_false_of_lt
  calc n % 2 < 2 := Nat.mod_lt _ (by norm_num)
    _ = 2^1 := by norm_num
    _ ≤ 2 ^ (k+1) := Nat.pow_le_pow_right (by norm_num) (by omega)

theorem testBit_ge16_eq_false (n i : Nat) (hn : n < 65536) (hi : 16 ≤ i) :
    n.testBit i = false := by
  apply Nat.testBit_eq_false_of_lt
  calc n < 65536 := hn
    _ = 2^16 := by norm_num
    _ ≤ 2 ^ i := Nat.pow_le_pow_right (by norm_num) hi

namespace card_state

/-! ## fidel_card.cpp: card scanner

`m_barcode` is a `u32`; arithmetic on it is modelled modulo `2^32`. -/

def U32 : Nat := 4294967296

/-- Loop body of `card_state::start_scan`: in each iteration the barcode
is shifted left by two, `1 << (code & 1)` is ORed in, and `code` is
shifted right by one. -/
def scanLoop : Nat → Nat → Nat → Nat
  | 0, _, barcode => barcode
  | n+1, code, barcode =>
      scanLoop n (code >>> 1) ((((barcode <<< 2) % U32) ||| (1 <<< (code &&& 1))) % U32)

/-- Embedding of `card_state::start_scan` (INPUT_CHANGED_MEMBER): if
`newval` is zero the handler returns immediately; otherwise it rebuilds
`m_barcode` from scratch by nine loop iterations followed by a final
left shift by one. -/
def start_scan (newval code barcode : Nat) : Nat :=
  if newval = 0 then barcode
  else (scanLoop 9 code 0 <<< 1) % U32

/-- Spec-side barcode-to-edge encoding, written from the claim text:
starting from 0, for i = 0 to 8 shift the accumulator left by 2 and OR
in `1 <<< b_i` where `b_i` is bit i of `code` least-significant-bit
first, then shift the whole result left by one. -/
def barcodeSpec (code : Nat) : Nat :=
  ((List.range 9).foldl
    (fun acc i => (acc <<< 2) ||| (1 <<< (if code.testBit i then 1 else 0))) 0) <<< 1

/-- Embedding of the periodic timer callback `card_state::barcode_shift`. -/
def barcode_shift (b : Nat) : Nat := b >>> 1

/-- Embedding of `card_state::mcu_t0_r`: reads `~m_barcode & 1` with
`m_barcode` a 32-bit unsigned value. -/
def mcu_t0_r (b : Nat) : Nat := ((U32 - 1) ^^^ b) &&& 1

/-- The 54 `start_scan` parameters of the `scanner` input ports, in
source order: spades A..K, the two jokers, hearts A..K, clubs A..K,
diamonds A..K. -/
def scannerBarcodes : List Nat :=
  [0x6f, 0x47, 0xd7, 0x27, 0xb7, 0x77, 0xe7, 0x0f, 0x9f, 0x5f, 0xcf, 0x3f, 0xaf,
   0xf9, 0xed,
   0x7b, 0x53, 0xc3, 0x33, 0xa3, 0x63, 0xf3, 0x1b, 0x8b, 0x4b, 0xdb, 0x2b, 0xbb,
   0x69, 0x95, 0xd1, 0x93, 0xb1, 0x71, 0xe1, 0x87, 0x99, 0x59, 0xc9, 0x39, 0xa9,
   0x7d, 0x55, 0xc5, 0x35, 0xa5, 0x65, 0xf5, 0x1d, 0x8d, 0x4d, 0xdd, 0x2d, 0xbd]

end card_state

/-! ## C1 -/

def scanChk (c : Nat) : Bool :=
  (card_state.scanLoop 9 c 0 <<< 1) % card_state.U32 == card_state.barcodeSpec c

theorem start_scan_encodes_aux :
    ∀ code, code < 512 →
      ((card_state.scanLoop 9 code 0 <<< 1) % card_state.U32
        == card_state.barcodeSpec code) = true := by
  intro code hc
  have h2 : (512:Nat) = 2^9 := by norm_num
  exact chkPow_spec0 scanChk 9 (by rfl) code (h2 ▸ hc)

/-- C1: for `newval` nonzero and a 9-bit `code`, `start_scan` discards
the previous `m_barcode` and sets it to exactly the barcode-to-edge
encoding described by the spec; for `newval = 0` it changes nothing. -/
theorem start_scan_encodes (newval code barcode : Nat) (hc : code < 512) :
    (newval ≠ 0 →
      card_state.start_scan newval code barcode = card_state.barcodeSpec code)
    ∧ (newval = 0 → card_state.start_scan newval code barcode = barcode) := by
  constructor
  · intro hnv
    have h := eq_of_beq (start_scan_encodes_aux code hc)
    rw [card_state.start_scan, if_neg hnv]
    exact h
  · intro hnv
    rw [card_state.start_scan, if_pos hnv]

theorem start_scan_encodes_witness :
    (0x6f : Nat) < 512 ∧ (1:Nat) ≠ 0 ∧
      card_state.start_scan 1 0x6f 7 = card_state.barcodeSpec 0x6f :=
  ⟨by decide, by decide, (start_scan_encodes 1 0x6f 7 (by decide)).1 (by decide)⟩

/-! ## C3 -/

/-- C3: the 54 scanner barcode parameters are pairwise distinct, fit in
8 bits (bit 8 is zero), are odd, and each has an even number of set
bits among its nine barcode bit positions. -/
theorem scannerBarcodes_wellformed :
    card_state.scannerBarcodes.length = 54
    ∧ card_state.scannerBarcodes.Nodup
    ∧ ∀ c ∈ card_state.scannerBarcodes,
        c < 256 ∧ c.testBit 8 = false ∧ c % 2 = 1
        ∧ ((List.range 9).countP (fun i => c.testBit i)) % 2 = 0 := by
  refine ⟨by decide, by decide, by decide⟩

/-! ## C2 -/

theorem barcode_shift_iterate (n : Nat) :
    ∀ b, card_state.barcode_shift^[n] b = b / 2 ^ n := by
  induction n with
  | zero => intro b; simp
  | succ k ih =>
    intro b
    rw [Function.iterate_succ_apply, ih, card_state.barcode_shift,
      Nat.shiftRight_eq_div_pow, Nat.div_div_eq_div_mul]
    congr 1
    ring

def scanBoundChk (c : Nat) : Bool :=
  decide ((card_state.scanLoop 9 c 0 <<< 1) % card_state.U32 < 524288)

theorem start_scan_bound :
    ∀ code, code < 512 →
      (card_state.scanLoop 9 code 0 <<< 1) % card_state.U32 < 2 ^ 19 := by
  intro code hc
  have h2 : (512:Nat) = 2^9 := by norm_num
  have h := of_decide_eq_true (chkPow_spec0 scanBoundChk 9 (by rfl) code (h2 ▸ hc))
  norm_num at h ⊢
  exact h

/-- C2: each `barcode_shift` tick halves `m_barcode`; `mcu_t0_r` reads 1
exactly when the low bit of `m_barcode` is 0; a fresh `start_scan`
result fits in 19 bits, so after 19 shifts `m_barcode` is 0 and every
further `mcu_t0_r` read returns 1. -/
theorem barcode_drain (code newval b0 : Nat) (hc : code < 512) (hnv : newval ≠ 0) :
    (∀ b, card_state.barcode_shift b = b >>> 1)
    ∧ (∀ b, (card_state.mcu_t0_r b = 1 ↔ b % 2 = 0)
        ∧ (card_state.mcu_t0_r b = 0 ↔ b % 2 = 1))
    ∧ card_state.start_scan newval code b0 < 2 ^ 19
    ∧ card_state.barcode_shift^[19] (card_state.start_scan newval code b0) = 0
    ∧ ∀ n, card_state.mcu_t0_r
        (card_state.barcode_shift^[19+n] (card_state.start_scan newval code b0)) = 1 := by
  have hval : card_state.start_scan newval code b0
      = (card_state.scanLoop 9 code 0 <<< 1) % card_state.U32 := by
    rw [card_state.start_scan, if_neg hnv]
  have hb : card_state.start_scan newval code b0 < 2 ^ 19 := by
    rw [hval]; exact start_scan_bound code hc
  refine ⟨fun b => rfl, ?_, hb, ?_, ?_⟩
  · intro b
    simp only [card_state.mcu_t0_r, Nat.and_one_is_mod, Nat.xor_mod_two_eq, card_state.U32]
    omega
  · rw [barcode_shift_iterate]
    exact Nat.div_eq_of_lt hb
  · intro n
    rw [barcode_shift_iterate]
    have hz : card_state.start_scan newval code b0 / 2 ^ (19 + n) = 0 := by
      apply Nat.div_eq_of_lt
      calc card_state.start_scan newval code b0 < 2 ^ 19 := hb
        _ ≤ 2 ^ (19 + n) := Nat.pow_le_pow_right (by norm_num) (by omega)
    rw [hz]
    decide

theorem barcode_drain_witness :
    (0x6f:Nat) < 512 ∧ (1:Nat) ≠ 0 ∧
      card_state.barcode_shift^[19] (card_state.start_scan 1 0x6f 5) = 0 :=
  ⟨by decide, by decide, (barcode_drain 0x6f 1 5 (by decide) (by decide)).2.2.2.1⟩

/-! ## fidel_card.cpp: speech, MCU ports, driver state -/

namespace card_state

/-- Trace items emitted towards the S14001A speech chip. -/
inductive SpeechOp where
  | dataW (v : Nat)
  | startW (line : Nat)
deriving DecidableEq

/-- Embedding of `card_state::speech_w` as the trace of device writes it
performs: when `m_speech` is nullptr (models without the speech chip)
the handler returns at once with no writes, otherwise it forwards
`data & 0x3f` and pulses the start line high then low. -/
def speech_w (speechPresent : Bool) (data : Nat) : List SpeechOp :=
  if speechPresent = false then []
  else [SpeechOp.dataW (data &&& 0x3f), SpeechOp.startW 1, SpeechOp.startW 0]

/-- Embedding of `card_state::mcu_p2_r`: low nibble from the I8243 P2
lines, high nibble from `read_inputs(8) << 4 ^ 0xf0`, returned as a
byte. -/
def mcu_p2_r (p2 inputs : Nat) : Nat :=
  ((p2 &&& 0x0f) ||| ((inputs <<< 4) ^^^ 0xf0)) % 256

/-- State variables of `card_state` touched by the I/O handlers. -/
structure DrvState where
  barcode : Nat
  inp_mux : Nat
  led_select : Nat
  m_7seg_data : Nat

/-- Embedding of `card_state::mcu_p1_w`: the written byte selects both
the display digits and the input mux (`m_inp_mux = m_led_select =
data`). -/
def mcu_p1_w (data : Nat) (s : DrvState) : DrvState :=
  { s with inp_mux := data, led_select := data }

/-- Embedding of `card_state::ioexp_port_w` acting on `m_7seg_data`:
the 4-bit nibble at bit `4*P` is replaced by `data & 0xf`.
`m_7seg_data` is the 16-bit segment latch declared in
`includes/fidelbase.h` (outside this repository); `prepare_display`
consumes it as a 16-bit word via `bitswap<16>`. -/
def ioexp_port_w (P seg7 data : Nat) : Nat :=
  (seg7 &&& (0xffff ^^^ (0xf <<< (4*P)))) ||| ((data &&& 0xf) <<< (4*P))

/-- Embedding of the DAC side effect of `card_state::ioexp_port_w`:
only the `P = 3` instantiation writes `BIT(data,1)`, and only when the
DAC device is present. -/
def ioexp_dac_w (P : Nat) (dacPresent : Bool) (data : Nat) : Option Nat :=
  if P = 3 ∧ dacPresent = true then some ((data >>> 1) &&& 1) else none

/-- Operations of the driver that run against `DrvState`. -/
inductive DrvOp where
  | scanOp (newval code : Nat)
  | shiftOp
  | p1Write (data : Nat)
  | portWrite (P : Nat) (data : Nat)
  | speechWrite (present : Bool) (data : Nat)
  | p2Read
  | t0Read
  | resetOp

/-- State transition of each driver operation, from the handler bodies
in `fidel_card.cpp`; read handlers and `reset_button` do not write any
of these variables. -/
def step : DrvOp → DrvState → DrvState
  | DrvOp.scanOp newval code, s => { s with barcode := start_scan newval code s.barcode }
  | DrvOp.shiftOp, s => { s with barcode := barcode_shift s.barcode }
  | DrvOp.p1Write data, s => mcu_p1_w data s
  | DrvOp.portWrite P data, s => { s with m_7seg_data := ioexp_port_w P s.m_7seg_data data }
  | DrvOp.speechWrite _ _, s => s
  | DrvOp.p2Read, s => s
  | DrvOp.t0Read, s => s
  | DrvOp.resetOp, s => s

/-- Modelled from the spec: `fidelbase_state::machine_start` is not part
of this repository (only its subclass override in `fidel_card.cpp` is);
per the spec the host framework zero-fills the registered driver state,
and `card_state::machine_start` then zero-fills `m_barcode` itself. -/
def machine_start (_ : DrvState) : DrvState :=
  { barcode := 0, inp_mux := 0, led_select := 0, m_7seg_data := 0 }

end card_state

/-! ## C6 -/

/-- C6 counterexample: with the speech device absent, `speech_w` forwards
nothing at all, so it does not unconditionally forward bits 0-5 and pulse
the start line; the driver does author a device-absence check. -/
theorem speech_w_unconditional_cex :
    ¬ (card_state.speech_w false 0
        = [card_state.SpeechOp.dataW (0 &&& 0x3f), card_state.SpeechOp.startW 1,
           card_state.SpeechOp.startW 0]) := by
  decide

/-- C6 (amended): when the speech device is present, `speech_w` forwards
bits 0-5 of the written value and pulses the start line high then low;
when it is absent the handler returns without any device write, which is
the only check authored in the driver. -/
theorem speech_w_guarded (present : Bool) (data : Nat) :
    (present = true →
      card_state.speech_w present data
        = [card_state.SpeechOp.dataW (data &&& 0x3f), card_state.SpeechOp.startW 1,
           card_state.SpeechOp.startW 0])
    ∧ (present = false → card_state.speech_w present data = []) := by
  cases present <;> simp [card_state.speech_w]

theorem speech_w_guarded_witness :
    (true = true) ∧ card_state.speech_w true 42
      = [card_state.SpeechOp.dataW (42 &&& 0x3f), card_state.SpeechOp.startW 1,
         card_state.SpeechOp.startW 0] :=
  ⟨rfl, (speech_w_guarded true 42).1 rfl⟩

/-! ## C7 -/

def p2Chk (n : Nat) : Bool :=
  ((card_state.mcu_p2_r (n / 16) (n % 16) &&& 0xf) == ((n / 16) &&& 0xf))
    && ((card_state.mcu_p2_r (n / 16) (n % 16) >>> 4) == (0xf ^^^ (n % 16)))
    && decide (card_state.mcu_p2_r (n / 16) (n % 16) < 256)

/-- C7: assuming `read_inputs(8)` returns a 4-bit value, `mcu_p2_r`
returns a byte whose low nibble is the I8243 P2 value masked to 4 bits
and whose high nibble is the bitwise complement of the input nibble. -/
theorem mcu_p2_r_spec (p2 inputs : Nat) (hp : p2 < 256) (hi : inputs < 16) :
    (card_state.mcu_p2_r p2 inputs &&& 0xf = p2 &&& 0xf)
    ∧ (card_state.mcu_p2_r p2 inputs >>> 4 = 0xf ^^^ inputs)
    ∧ card_state.mcu_p2_r p2 inputs < 256 := by
  have hn : p2 * 16 + inputs < 4096 := by omega
  have h4096 : (4096:Nat) = 2^12 := by norm_num
  have h := chkPow_spec0 p2Chk 12 (by rfl) (p2 * 16 + inputs) (h4096 ▸ hn)
  have hdiv : (p2 * 16 + inputs) / 16 = p2 := by omega
  have hmod : (p2 * 16 + inputs) % 16 = inputs := by omega
  simp only [p2Chk, hdiv, hmod, Bool.and_eq_true, beq_iff_eq, decide_eq_true_eq] at h
  exact ⟨h.1.1, h.1.2, h.2⟩

theorem mcu_p2_r_spec_witness :
    (0xa5:Nat) < 256 ∧ (0x9:Nat) < 16
      ∧ card_state.mcu_p2_r 0xa5 0x9 >>> 4 = 0xf ^^^ 0x9 :=
  ⟨by decide, by decide, (mcu_p2_r_spec 0xa5 0x9 (by decide) (by decide)).2.1⟩

/-! ## C9 -/

/-- C9: `mcu_p1_w` writes its argument to both `m_inp_mux` and
`m_led_select`, no other operation writes either variable, and hence
after `machine_start` the equality of the two selects is an invariant
preserved by every driver operation. -/
theorem inp_mux_eq_led_select (s0 : card_state.DrvState) :
    ((card_state.machine_start s0).inp_mux = (card_state.machine_start s0).led_select)
    ∧ (∀ d s, (card_state.mcu_p1_w d s).inp_mux = d
        ∧ (card_state.mcu_p1_w d s).led_select = d)
    ∧ ∀ (op : card_state.DrvOp) (s : card_state.DrvState),
        s.inp_mux = s.led_select
        → (card_state.step op s).inp_mux = (card_state.step op s).led_select := by
  refine ⟨rfl, fun d s => ⟨rfl, rfl⟩, ?_⟩
  intro op s h
  cases op <;> first
    | exact h
    | rfl

theorem inp_mux_eq_led_select_witness :
    (card_state.step (card_state.DrvOp.p1Write 0xa5) ⟨3, 7, 7, 9⟩).inp_mux
      = (card_state.step (card_state.DrvOp.p1Write 0xa5) ⟨3, 7, 7, 9⟩).led_select :=
  (inp_mux_eq_led_select ⟨0, 0, 0, 0⟩).2.2 (card_state.DrvOp.p1Write 0xa5) ⟨3, 7, 7, 9⟩ rfl

/-! ## C4 -/

/-- C4: `ioexp_port_w<P>` replaces exactly the 4-bit nibble at bit
position `4*P` of `m_7seg_data` with `data & 0xf`, leaves the other
twelve bits unchanged, and keeps the latch 16-bit; only the `P = 3`
instantiation writes bit 1 of `data` to the DAC, and only when a DAC
device is present. -/
theorem ioexp_port_w_spec (P seg data : Nat) (hP : P < 4) (hseg : seg < 65536) :
    (∀ i, i < 4 →
      (card_state.ioexp_port_w P seg data).testBit (4*P + i) = data.testBit i)
    ∧ (∀ i, i < 16 → i / 4 ≠ P →
      (card_state.ioexp_port_w P seg data).testBit i = seg.testBit i)
    ∧ card_state.ioexp_port_w P seg data < 65536
    ∧ card_state.ioexp_dac_w 3 true data = some ((data >>> 1) &&& 1)
    ∧ (∀ pr, P ≠ 3 → card_state.ioexp_dac_w P pr data = none)
    ∧ (∀ pr, pr = false → card_state.ioexp_dac_w P pr data = none) := by
  refine ⟨?_, ?_, ?_, rfl, ?_, ?_⟩
  · intro i hi
    interval_cases P <;> interval_cases i <;>
      · simp only [card_state.ioexp_port_w, Nat.testBit_or, Nat.testBit_and,
          Nat.testBit_shiftLeft, Nat.testBit_xor]
        simp [Nat.testBit_to_div_mod]
  · intro i hi hne
    interval_cases P <;> interval_cases i <;> first
      | (exfalso; omega)
      | (simp only [card_state.ioexp_port_w, Nat.testBit_or, Nat.testBit_and,
            Nat.testBit_shiftLeft, Nat.testBit_xor]
         simp [Nat.testBit_to_div_mod])
  · have h1 : seg &&& (0xffff ^^^ (0xf <<< (4*P))) < 65536 := by
      have hle : seg &&& (0xffff ^^^ (0xf <<< (4*P))) ≤ seg := Nat.and_le_left
      omega
    have h2 : (data &&& 0xf) <<< (4*P) < 65536 := by
      have hle : data &&& 0xf ≤ 0xf := Nat.and_le_right
      rw [Nat.shiftLeft_eq]
      have hpow : (2:Nat) ^ (4*P) ≤ 2 ^ 12 := Nat.pow_le_pow_right (by norm_num) (by omega)
      calc (data &&& 0xf) * 2 ^ (4*P) ≤ 15 * 2 ^ 12 :=
            Nat.mul_le_mul hle hpow
        _ < 65536 := by norm_num
    have h65536 : (65536:Nat) = 2 ^ 16 := by norm_num
    rw [card_state.ioexp_port_w, h65536]
    exact Nat.or_lt_two_pow (h65536 ▸ h1) (h65536 ▸ h2)
  · intro pr hne
    simp [card_state.ioexp_dac_w, hne]
  · intro pr hpr
    simp [card_state.ioexp_dac_w, hpr]

theorem ioexp_port_w_spec_witness :
    (2:Nat) < 4 ∧ (0x1234:Nat) < 65536
      ∧ (card_state.ioexp_port_w 2 0x1234 0xab).testBit (4*2+1) = (0xab:Nat).testBit 1 :=
  ⟨by decide, by decide,
    (ioexp_port_w_spec 2 0x1234 0xab (by decide) (by decide)).1 1 (by decide)⟩

/-! ## retcom87.cpp: gtvip address map -/

namespace gtvip_state

/-- Handlers reachable through the gtvip address map. -/
inductive H where
  | unmapped
  | ram
  | rom
  | vdpVram
  | vdpReg
  | ymData
  | ymAddr
deriving DecidableEq

/-- One `map(lo, hi)` entry: the read and the write handler it
installs, if any. -/
structure Entry where
  lo : Nat
  hi : Nat
  r : Option H
  w : Option H

/-- Embedding of `gtvip_state::main_memmap`, entries in source order:
RAM 0x0000-0x7fff, ROM 0x8000-0xffff (read only), the TMS9918 VRAM and
register ports at 0xdfc0/0xdfc1 (read/write), and the YM2149 data and
address ports at 0xdf10/0xdf11 (write only). -/
def main_memmap : List Entry :=
  [⟨0x0000, 0x7fff, some H.ram, some H.ram⟩,
   ⟨0x8000, 0xffff, some H.rom, none⟩,
   ⟨0xdfc0, 0xdfc0, some H.vdpVram, some H.vdpVram⟩,
   ⟨0xdfc1, 0xdfc1, some H.vdpReg, some H.vdpReg⟩,
   ⟨0xdf10, 0xdf10, none, some H.ymData⟩,
   ⟨0xdf11, 0xdf11, none, some H.ymAddr⟩]

/-- Read dispatch of the host address map: entries are installed in
order, and a later entry overrides earlier ones only where it declares
a read handler. -/
def readH (m : List Entry) (a : Nat) : H :=
  m.foldl (fun acc e =>
    if e.lo ≤ a ∧ a ≤ e.hi then
      match e.r with
      | some h => h
      | none => acc
    else acc) H.unmapped

/-- Write dispatch of the host address map, analogous to `readH`. -/
def writeH (m : List Entry) (a : Nat) : H :=
  m.foldl (fun acc e =>
    if e.lo ≤ a ∧ a ≤ e.hi then
      match e.w with
      | some h => h
      | none => acc
    else acc) H.unmapped

end gtvip_state

/-! ## C5 -/

/-- C5: writes to 0xdf10/0xdf11 reach the YM2149 and accesses to
0xdfc0/0xdfc1 reach the TMS9918 even though those addresses lie inside
the 0x8000-0xffff ROM range; every other address in that range reads
ROM; 0xdfc2-0xdfc7 and 0xdf12-0xdf15 are plain ROM with unmapped
writes; and no address reads back the YM2149. -/
theorem gtvip_memmap_spec :
    (gtvip_state.writeH gtvip_state.main_memmap 0xdf10 = gtvip_state.H.ymData)
    ∧ (gtvip_state.writeH gtvip_state.main_memmap 0xdf11 = gtvip_state.H.ymAddr)
    ∧ (gtvip_state.readH gtvip_state.main_memmap 0xdfc0 = gtvip_state.H.vdpVram
        ∧ gtvip_state.writeH gtvip_state.main_memmap 0xdfc0 = gtvip_state.H.vdpVram)
    ∧ (gtvip_state.readH gtvip_state.main_memmap 0xdfc1 = gtvip_state.H.vdpReg
        ∧ gtvip_state.writeH gtvip_state.main_memmap 0xdfc1 = gtvip_state.H.vdpReg)
    ∧ (∀ a, 0x8000 ≤ a → a ≤ 0xffff → a ≠ 0xdfc0 → a ≠ 0xdfc1 →
        gtvip_state.readH gtvip_state.main_memmap a = gtvip_state.H.rom)
    ∧ (∀ a, 0xdfc2 ≤ a → a ≤ 0xdfc7 →
        gtvip_state.readH gtvip_state.main_memmap a = gtvip_state.H.rom
        ∧ gtvip_state.writeH gtvip_state.main_memmap a = gtvip_state.H.unmapped)
    ∧ (∀ a, 0xdf12 ≤ a → a ≤ 0xdf15 →
        gtvip_state.readH gtvip_state.main_memmap a = gtvip_state.H.rom
        ∧ gtvip_state.writeH gtvip_state.main_memmap a = gtvip_state.H.unmapped)
    ∧ (∀ a, gtvip_state.readH gtvip_state.main_memmap a ≠ gtvip_state.H.ymData
        ∧ gtvip_state.readH gtvip_state.main_memmap a ≠ gtvip_state.H.ymAddr) := by
  refine ⟨by decide, by decide, ⟨by decide, by decide⟩, ⟨by decide, by decide⟩,
    ?_, ?_, ?_, ?_⟩
  · intro a h1 h2 h3 h4
    simp only [gtvip_state.readH, gtvip_state.main_memmap, List.foldl_cons, List.foldl_nil]
    split_ifs <;> first | rfl | (exfalso; omega)
  · intro a h1 h2
    constructor
    · simp only [gtvip_state.readH, gtvip_state.main_memmap, List.foldl_cons, List.foldl_nil]
      split_ifs <;> first | rfl | (exfalso; omega)
    · simp only [gtvip_state.writeH, gtvip_state.main_memmap, List.foldl_cons, List.foldl_nil]
      split_ifs <;> first | rfl | (exfalso; omega)
  · intro a h1 h2
    constructor
    · simp only [gtvip_state.readH, gtvip_state.main_memmap, List.foldl_cons, List.foldl_nil]
      split_ifs <;> first | rfl | (exfalso; omega)
    · simp only [gtvip_state.writeH, gtvip_state.main_memmap, List.foldl_cons, List.foldl_nil]
      split_ifs <;> first | rfl | (exfalso; omega)
  · intro a
    constructor
    · simp only [gtvip_state.readH, gtvip_state.main_memmap, List.foldl_cons, List.foldl_nil]
      split_ifs <;> simp
    · simp only [gtvip_state.readH, gtvip_state.main_memmap, List.foldl_cons, List.foldl_nil]
      split_ifs <;> simp

theorem gtvip_memmap_spec_witness :
    (0x8000:Nat) ≤ 0x9000 ∧ (0x9000:Nat) ≤ 0xffff ∧ (0x9000:Nat) ≠ 0xdfc0
      ∧ (0x9000:Nat) ≠ 0xdfc1
      ∧ gtvip_state.readH gtvip_state.main_memmap 0x9000 = gtvip_state.H.rom :=
  ⟨by decide, by decide, by decide, by decide,
    gtvip_memmap_spec.2.2.2.2.1 0x9000 (by decide) (by decide) (by decide) (by decide)⟩

/-! ## fidel_card.cpp: main_map -/

namespace card_state

/-- Targets reachable through the Z80 program map of `fidel_card.cpp`. -/
inductive MemT where
  | unmapped
  | rom (off : Nat)
  | ram (cell : Nat)
  | speechW
deriving DecidableEq

/-- One address map entry with its mirror mask and optional read/write
handlers taking the offset within the range. -/
structure MEntry where
  lo : Nat
  hi : Nat
  mir : Nat
  r : Option (Nat → MemT)
  w : Option (Nat → MemT)

/-- Mirror semantics of the host address map on the 16-bit Z80 bus: an
entry matches an address when clearing the mirrored bits lands it in
the entry range. -/
def clearMir (a mir : Nat) : Nat := a &&& (0xffff ^^^ mir)

/-- Embedding of `card_state::main_map`, entries in source order: ROM
at 0x0000-0x5fff, 1K RAM at 0x6000-0x63ff with mirror 0x1c00, and
`speech_w` at 0xe000 with mirror 0x1fff. -/
def main_map : List MEntry :=
  [⟨0x0000, 0x5fff, 0, some (fun o => MemT.rom o), none⟩,
   ⟨0x6000, 0x63ff, 0x1c00, some (fun o => MemT.ram o), some (fun o => MemT.ram o)⟩,
   ⟨0xe000, 0xe000, 0x1fff, none, some (fun _ => MemT.speechW)⟩]

/-- Read dispatch through the mirrored address map. -/
def readT (m : List MEntry) (a : Nat) : MemT :=
  m.foldl (fun acc e =>
    if e.lo ≤ clearMir a e.mir ∧ clearMir a e.mir ≤ e.hi then
      match e.r with
      | some f => f (clearMir a e.mir - e.lo)
      | none => acc
    else acc) MemT.unmapped

/-- Write dispatch through the mirrored address map. -/
def writeT (m : List MEntry) (a : Nat) : MemT :=
  m.foldl (fun acc e =>
    if e.lo ≤ clearMir a e.mir ∧ clearMir a e.mir ≤ e.hi then
      match e.w with
      | some f => f (clearMir a e.mir - e.lo)
      | none => acc
    else acc) MemT.unmapped

end card_state

/-! ## C8 helper lemmas about the mirror masks -/

theorem clearMir_zero (a : Nat) (h : a < 65536) : card_state.clearMir a 0 = a := by
  rw [card_state.clearMir, Nat.xor_zero]
  have h16 : (0xffff:Nat) = 2^16 - 1 := by norm_num
  rw [h16, Nat.and_pow_two_sub_one_eq_mod]
  exact Nat.mod_eq_of_lt h

theorem clearMir_ram_mid (a : Nat) (h1 : 0x6000 ≤ a) (h2 : a ≤ 0x7fff) :
    card_state.clearMir a 0x1c00 = 0x6000 + a % 0x400 := by
  apply Nat.eq_of_testBit_eq
  intro i
  rcases Nat.lt_or_ge i 16 with hi | hi
  · interval_cases i <;> first
      | (simp only [card_state.clearMir, Nat.testBit_and, Nat.testBit_xor]
         simp [Nat.testBit_to_div_mod, decide_eq_decide]
         omega)
      | (simp only [card_state.clearMir, Nat.testBit_and, Nat.testBit_xor]
         simp [Nat.testBit_to_div_mod, decide_eq_decide])
  · have hL : card_state.clearMir a 0x1c00 < 65536 := by
      have hle : card_state.clearMir a 0x1c00 ≤ 0xffff ^^^ 0x1c00 := Nat.and_le_right
      have hx : (0xffff ^^^ 0x1c00 : Nat) < 65536 := by decide
      omega
    rw [testBit_ge16_eq_false _ i hL hi, testBit_ge16_eq_false _ i (by omega) hi]

theorem clearMir_ram_hi (a : Nat) (h1 : 0xe000 ≤ a) (h2 : a ≤ 0xffff) :
    card_state.clearMir a 0x1c00 = 0xe000 + a % 0x400 := by
  apply Nat.eq_of_testBit_eq
  intro i
  rcases Nat.lt_or_ge i 16 with hi | hi
  · interval_cases i <;> first
      | (simp only [card_state.clearMir, Nat.testBit_and, Nat.testBit_xor]
         simp [Nat.testBit_to_div_mod, decide_eq_decide]
         omega)
      | (simp only [card_state.clearMir, Nat.testBit_and, Nat.testBit_xor]
         simp [Nat.testBit_to_div_mod, decide_eq_decide])
  · have hL : card_state.clearMir a 0x1c00 < 65536 := by
      have hle : card_state.clearMir a 0x1c00 ≤ 0xffff ^^^ 0x1c00 := Nat.and_le_right
      have hx : (0xffff ^^^ 0x1c00 : Nat) < 65536 := by decide
      omega
    rw [testBit_ge16_eq_false _ i hL hi, testBit_ge16_eq_false _ i (by omega) hi]

theorem clearMir_speech_mid (a : Nat) (h1 : 0x6000 ≤ a) (h2 : a ≤ 0x7fff) :
    card_state.clearMir a 0x1fff = 0x6000 := by
  apply Nat.eq_of_testBit_eq
  intro i
  rcases Nat.lt_or_ge i 16 with hi | hi
  · interval_cases i <;> first
      | (simp only [card_state.clearMir, Nat.testBit_and, Nat.testBit_xor]
         simp [Nat.testBit_to_div_mod, decide_eq_decide]
         omega)
      | (simp only [card_state.clearMir, Nat.testBit_and, Nat.testBit_xor]
         simp [Nat.testBit_to_div_mod, decide_eq_decide])
  · have hL : card_state.clearMir a 0x1fff < 65536 := by
      have hle : card_state.clearMir a 0x1fff ≤ 0xffff ^^^ 0x1fff := Nat.and_le_right
      have hx : (0xffff ^^^ 0x1fff : Nat) < 65536 := by decide
      omega
    rw [testBit_ge16_eq_false _ i hL hi, testBit_ge16_eq_false _ i (by norm_num) hi]

theorem clearMir_speech_hi (a : Nat) (h1 : 0xe000 ≤ a) (h2 : a ≤ 0xffff) :
    card_state.clearMir a 0x1fff = 0xe000 := by
  apply Nat.eq_of_testBit_eq
  intro i
  rcases Nat.lt_or_ge i 16 with hi | hi
  · interval_cases i <;> first
      | (simp only [card_state.clearMir, Nat.testBit_and, Nat.testBit_xor]
         simp [Nat.testBit_to_div_mod, decide_eq_decide]
         omega)
      | (simp only [card_state.clearMir, Nat.testBit_and, Nat.testBit_xor]
         simp [Nat.testBit_to_div_mod, decide_eq_decide])
  · have hL : card_state.clearMir a 0x1fff < 65536 := by
      have hle : card_state.clearMir a 0x1fff ≤ 0xffff ^^^ 0x1fff := Nat.and_le_right
      have hx : (0xffff ^^^ 0x1fff : Nat) < 65536 := by decide
      omega
    rw [testBit_ge16_eq_false _ i hL hi, testBit_ge16_eq_false _ i (by norm_num) hi]

theorem readT_ram (a : Nat) (h1 : 0x6000 ≤ a) (h2 : a ≤ 0x7fff) :
    card_state.readT card_state.main_map a = card_state.MemT.ram (a % 0x400) := by
  have hf0 := clearMir_zero a (by omega)
  have hfm := clearMir_ram_mid a h1 h2
  have hfs := clearMir_speech_mid a h1 h2
  have hc1 : ¬ a ≤ 0x5fff := by omega
  have hc2 : 0x6000 + a % 0x400 ≤ 0x63ff := by omega
  have hoff : 0x6000 + a % 0x400 - 0x6000 = a % 0x400 := by omega
  simp [card_state.readT, card_state.main_map, hf0, hfm, hfs, hc1, hc2, hoff]

theorem writeT_ram (a : Nat) (h1 : 0x6000 ≤ a) (h2 : a ≤ 0x7fff) :
    card_state.writeT card_state.main_map a = card_state.MemT.ram (a % 0x400) := by
  have hf0 := clearMir_zero a (by omega)
  have hfm := clearMir_ram_mid a h1 h2
  have hfs := clearMir_speech_mid a h1 h2
  have hc1 : ¬ a ≤ 0x5fff := by omega
  have hc2 : 0x6000 + a % 0x400 ≤ 0x63ff := by omega
  have hoff : 0x6000 + a % 0x400 - 0x6000 = a % 0x400 := by omega
  simp [card_state.writeT, card_state.main_map, hf0, hfm, hfs, hc1, hc2, hoff]

theorem writeT_speech (a : Nat) (h1 : 0xe000 ≤ a) (h2 : a ≤ 0xffff) :
    card_state.writeT card_state.main_map a = card_state.MemT.speechW := by
  have hf0 := clearMir_zero a (by omega)
  have hfm := clearMir_ram_hi a h1 h2
  have hfs := clearMir_speech_hi a h1 h2
  have hc1 : ¬ a ≤ 0x5fff := by omega
  have hc2 : ¬ 0xe000 + a % 0x400 ≤ 0x63ff := by omega
  simp [card_state.writeT, card_state.main_map, hf0, hfm, hfs, hc1, hc2]

/-- C8: the 1K RAM at 0x6000-0x63ff is mirrored with mask 0x1c00, so
any two addresses of 0x6000-0x7fff congruent modulo 0x400 read and
write the same RAM cell; and every write to 0xe000-0xffff invokes
`speech_w`. -/
theorem card_main_map_spec (a1 a2 : Nat)
    (h1 : 0x6000 ≤ a1) (h2 : a1 ≤ 0x7fff) (h3 : 0x6000 ≤ a2) (h4 : a2 ≤ 0x7fff)
    (hcong : a1 % 0x400 = a2 % 0x400) :
    (card_state.readT card_state.main_map a1 = card_state.MemT.ram (a1 % 0x400)
      ∧ card_state.writeT card_state.main_map a1 = card_state.MemT.ram (a1 % 0x400)
      ∧ card_state.readT card_state.main_map a1 = card_state.readT card_state.main_map a2
      ∧ card_state.writeT card_state.main_map a1 = card_state.writeT card_state.main_map a2)
    ∧ ∀ a, 0xe000 ≤ a → a ≤ 0xffff →
        card_state.writeT card_state.main_map a = card_state.MemT.speechW := by
  refine ⟨⟨readT_ram a1 h1 h2, writeT_ram a1 h1 h2, ?_, ?_⟩, fun a ha1 ha2 => writeT_speech a ha1 ha2⟩
  · rw [readT_ram a1 h1 h2, readT_ram a2 h3 h4, hcong]
  · rw [writeT_ram a1 h1 h2, writeT_ram a2 h3 h4, hcong]

theorem card_main_map_spec_witness :
    (0x6123:Nat) % 0x400 = (0x7923:Nat) % 0x400
      ∧ card_state.readT card_state.main_map 0x6123
          = card_state.readT card_state.main_map 0x7923 :=
  ⟨by decide,
    (card_main_map_spec 0x6123 0x7923 (by decide) (by decide) (by decide) (by decide)
      (by decide)).1.2.2.1⟩

/-! ## fidel_card.cpp: prepare_display bitswap -/

namespace card_state

/-- Source bit indices of the `bitswap<16>` call in
`card_state::prepare_display`, most significant output bit first. -/
def bitswapIdx : List Nat := [12, 13, 1, 6, 5, 2, 0, 7, 15, 11, 10, 14, 4, 3, 9, 8]

/-- Embedding of the MAME `bitswap<16>` template: peel the index list
MSB first, shifting the accumulator left and ORing in the selected
source bit `BIT(v, b)`. -/
def bitswap16 (v : Nat) : Nat :=
  bitswapIdx.foldl (fun acc b => (acc <<< 1) ||| ((v >>> b) &&& 1)) 0

/-- Embedding of `card_state::prepare_display`: the 16-bit word handed
to `display_matrix` as segment data. -/
def prepare_display (seg7 : Nat) : Nat := bitswap16 seg7

end card_state

/-! ## C10 -/

theorem bitswap16_testBit (x : Nat) :
    ((card_state.bitswap16 x).testBit 15 = x.testBit 12)
    ∧ ((card_state.bitswap16 x).testBit 14 = x.testBit 13)
    ∧ ((card_state.bitswap16 x).testBit 13 = x.testBit 1)
    ∧ ((card_state.bitswap16 x).testBit 12 = x.testBit 6)
    ∧ ((card_state.bitswap16 x).testBit 11 = x.testBit 5)
    ∧ ((card_state.bitswap16 x).testBit 10 = x.testBit 2)
    ∧ ((card_state.bitswap16 x).testBit 9 = x.testBit 0)
    ∧ ((card_state.bitswap16 x).testBit 8 = x.testBit 7)
    ∧ ((card_state.bitswap16 x).testBit 7 = x.testBit 15)
    ∧ ((card_state.bitswap16 x).testBit 6 = x.testBit 11)
    ∧ ((card_state.bitswap16 x).testBit 5 = x.testBit 10)
    ∧ ((card_state.bitswap16 x).testBit 4 = x.testBit 14)
    ∧ ((card_state.bitswap16 x).testBit 3 = x.testBit 4)
    ∧ ((card_state.bitswap16 x).testBit 2 = x.testBit 3)
    ∧ ((card_state.bitswap16 x).testBit 1 = x.testBit 9)
    ∧ ((card_state.bitswap16 x).testBit 0 = x.testBit 8) := by
  refine ⟨?_, ?_, ?_, ?_, ?_, ?_, ?_, ?_, ?_, ?_, ?_, ?_, ?_, ?_, ?_, ?_⟩ <;>
    simp [card_state.bitswap16, card_state.bitswapIdx, Nat.testBit_or,
      Nat.testBit_shiftLeft, Nat.testBit_and, Nat.testBit_shiftRight,
      testBit_mod_two_succ]

/-- C10: the 16 source indices of the `prepare_display` bitswap are a
permutation of 0..15, hence the bitswap is injective on 16-bit words:
distinct values of `m_7seg_data` always yield distinct `outdata`. -/
theorem prepare_display_bitswap_bijective :
    card_state.bitswapIdx.Nodup
    ∧ card_state.bitswapIdx.length = 16
    ∧ (∀ b ∈ card_state.bitswapIdx, b < 16)
    ∧ ∀ x y, x < 65536 → y < 65536 →
        card_state.prepare_display x = card_state.prepare_display y → x = y := by
  refine ⟨by decide, by decide, by decide, ?_⟩
  intro x y hx hy h
  have h2 : card_state.bitswap16 x = card_state.bitswap16 y := h
  obtain ⟨ex15, ex14, ex13, ex12, ex11, ex10, ex9, ex8,
    ex7, ex6, ex5, ex4, ex3, ex2, ex1, ex0⟩ := bitswap16_testBit x
  obtain ⟨ey15, ey14, ey13, ey12, ey11, ey10, ey9, ey8,
    ey7, ey6, ey5, ey4, ey3, ey2, ey1, ey0⟩ := bitswap16_testBit y
  apply Nat.eq_of_testBit_eq
  intro i
  rcases Nat.lt_or_ge i 16 with hi | hi
  · interval_cases i
    · rw [← ex9, ← ey9, h2]
    · rw [← ex13, ← ey13, h2]
    · rw [← ex10, ← ey10, h2]
    · rw [← ex2, ← ey2, h2]
    · rw [← ex3, ← ey3, h2]
    · rw [← ex11, ← ey11, h2]
    · rw [← ex12, ← ey12, h2]
    · rw [← ex8, ← ey8, h2]
    · rw [← ex0, ← ey0, h2]
    · rw [← ex1, ← ey1, h2]
    · rw [← ex5, ← ey5, h2]
    · rw [← ex6, ← ey6, h2]
    · rw [← ex15, ← ey15, h2]
    · rw [← ex14, ← ey14, h2]
    · rw [← ex4, ← ey4, h2]
    · rw [← ex7, ← ey7, h2]
  · rw [testBit_ge16_eq_false x i hx hi, testBit_ge16_eq_false y i hy hi]

theorem prepare_display_bitswap_bijective_witness :
    (0x1234:Nat) < 65536
      ∧ card_state.prepare_display 0x1234 = card_state.prepare_display 0x1234
      ∧ (0x1234:Nat) = 0x1234 :=
  ⟨by decide, rfl,
    prepare_display_bitswap_bijective.2.2.2 0x1234 0x1234 (by decide) (by decide) rfl⟩
